import Mathlib

/-!
# Verification of the Mood-tracker analytics engine (`analytics.py`)

Shallow embedding of `MoodAnalytics` from `src/analytics.py`.

Modelling conventions:
* A calendar date is a `(year, month, day)` triple; `toOrdinal` is the
  proleptic-Gregorian day number (Python's `date.toordinal`), used both for
  sorting by date and for day differences `(d2 - d1).days`.
* Mood ratings are integers; all floating-point arithmetic of the source
  (means, correlations, variances) is modelled exactly over `ℚ`.
* `pandas`-isms are translated pointwise: `sort_values('date')` becomes an
  insertion sort on the date ordinal; `tail(n)` becomes `lastN n`;
  `rolling(window=w, min_periods=1).mean()` becomes `rollingMean w`;
  `groupby` + `reindex`/`sort_values` on a canonical key list becomes a
  `filterMap` over that key list; `idxmax`/`idxmin` (first index attaining
  the extremum) become `firstMaxBy`/`firstMinBy`.
* Quantities of the source that are irrational square roots
  (`std_dev = sqrt(variance)`, Pearson `r = cov / sqrt(varx * vary)`) are
  represented by their squared/radicand-level data, which determines them:
  a `VolatilityResult` stores the sample variance (`std_dev ^ 2`), and a
  `CorrEntry` stores the centered covariance sum `num` together with
  `den = varx * vary`, so that the source's coefficient is `num / sqrt den`.
-/

/-- A calendar date, as in Python's `datetime.date`. -/
structure Date where
  year : ℕ
  month : ℕ
  day : ℕ
deriving DecidableEq

/-- One mood-log row: `date`, integer `mood` rating, free-text `journal`
(the `date, mood, journal` columns of `data_manager.py`). -/
structure Entry where
  date : Date
  mood : ℤ
  journal : String
deriving DecidableEq

/-- Gregorian leap-year test. -/
def isLeap (y : ℕ) : Bool := (y % 4 == 0 && y % 100 != 0) || y % 400 == 0

/-- Days in the months strictly before month `m` of a non-leap year. -/
def daysBeforeMonth (m : ℕ) : ℕ :=
  [0, 31, 59, 90, 120, 151, 181, 212, 243, 273, 304, 334].getD (m - 1) 0

/-- Proleptic-Gregorian ordinal of a date (Python `date.toordinal`:
0001-01-01 has ordinal 1). -/
def toOrdinal (d : Date) : ℕ :=
  let py := d.year - 1
  365 * py + py / 4 + py / 400 + daysBeforeMonth d.month +
    (if isLeap d.year && 2 < d.month then 1 else 0) + d.day - py / 100

/-- Weekday index, Monday = 0 .. Sunday = 6 (Python `date.weekday()` and
pandas `dt.dayofweek`). -/
def dayOfWeek (d : Date) : ℕ := (toOrdinal d + 6) % 7

/-- Date-ascending comparison on entries (the key of `sort_values('date')`). -/
def byDate (a b : Entry) : Prop := toOrdinal a.date ≤ toOrdinal b.date

instance : DecidableRel byDate := fun a b => Nat.decLe _ _

instance : IsTotal Entry byDate := ⟨fun a b => Nat.le_total _ _⟩

instance : IsTrans Entry byDate := ⟨fun _ _ _ => Nat.le_trans⟩

/-- `df.sort_values('date')`. -/
def sortByDate (l : List Entry) : List Entry := l.insertionSort byDate

/-- Mood column of a frame, as exact rationals. -/
def moodsOf (l : List Entry) : List ℚ := l.map (fun e => (e.mood : ℚ))

/-- Arithmetic mean of a list (`Series.mean`, `np.mean`). -/
def mean (l : List ℚ) : ℚ := l.sum / l.length

/-- The last `n` elements of a list (`Series.tail(n)`). -/
def lastN (n : ℕ) (l : List α) : List α := l.drop (l.length - n)

/-- `Series.rolling(window=w, min_periods=1).mean()`: entry `i` is the mean
of the last at-most-`w` values among the first `i+1`. -/
def rollingMean (w : ℕ) (xs : List ℚ) : List ℚ :=
  (List.range xs.length).map (fun i => mean (lastN w (xs.take (i + 1))))

/-- Result of `get_mood_trends` (the `data_with_averages` frame is the sorted
entries zipped with their 7-day and 30-day rolling means). -/
structure TrendResult where
  trend_direction : String
  recent_average : ℚ
  previous_average : ℚ
  data_with_averages : List (Entry × ℚ × ℚ)
deriving DecidableEq

/-- The trend-direction classification of `get_mood_trends` (`0.2` of the
source modelled as the exact rational `1/5`). -/
def classifyDir (recent previous : ℚ) : String :=
  if previous + 1/5 < recent then "improving"
  else if recent < previous - 1/5 then "declining"
  else "stable"

/-- `MoodAnalytics.get_mood_trends`; `none` models the `{}` returned on an
empty frame. -/
def getMoodTrends (l : List Entry) : Option TrendResult :=
  if l = [] then none
  else
    let s := sortByDate l
    let moods := moodsOf s
    let recent := mean (lastN 7 moods)
    let previous := if 14 ≤ s.length then mean ((lastN 14 moods).take 7) else recent
    some ⟨classifyDir recent previous, recent, previous,
      s.zip ((rollingMean 7 moods).zip (rollingMean 30 moods))⟩

/-- Date column of the sorted frame, as ordinals
(`df_sorted['date'].tolist()` in `get_streak_analysis`). -/
def sortedDates (l : List Entry) : List ℕ := (sortByDate l).map (fun e => toOrdinal e.date)

/-- Loop body of the streak scan of `get_streak_analysis`: `p` is the previous
date, `cur` the running streak length; a closed streak is recorded only when
its length exceeds 1, and the final streak is closed the same way. -/
def streakGo (p : ℕ) (cur : ℕ) : List ℕ → List ℕ
  | [] => if 1 < cur then [cur] else []
  | d :: ds =>
    if d - p = 1 then streakGo d (cur + 1) ds
    else (if 1 < cur then [cur] else []) ++ streakGo d 1 ds

/-- The `streaks` list computed by `get_streak_analysis` on a date list. -/
def findStreaks : List ℕ → List ℕ
  | [] => []
  | d :: ds => streakGo d 1 ds

/-- Specification-side notion: lengths of the maximal runs of consecutive
dates (gap exactly 1 day) in a date list, every run included whatever its
length.  Loop body: `p` previous date, `k` running run length. -/
def runGo (p : ℕ) (k : ℕ) : List ℕ → List ℕ
  | [] => [k]
  | d :: ds => if d - p = 1 then runGo d (k + 1) ds else k :: runGo d 1 ds

/-- Lengths of all maximal runs of consecutive dates. -/
def runLengths : List ℕ → List ℕ
  | [] => []
  | d :: ds => runGo d 1 ds

/-- Result of `get_streak_analysis`. -/
structure StreakResult where
  longest_streak : ℕ
  average_streak : ℚ
  total_streaks : ℕ
  consistency_score : ℚ
deriving DecidableEq

/-- `MoodAnalytics.get_streak_analysis`; `none` models the `{}` returned on
an empty frame. -/
def getStreakAnalysis (l : List Entry) : Option StreakResult :=
  if l = [] then none
  else
    let dates := sortedDates l
    let streaks := findStreaks dates
    some
      { longest_streak := if streaks = [] then 1 else streaks.foldl max 0
        average_streak :=
          if streaks = [] then 1 else (streaks.map (fun k : ℕ => (k : ℚ))).sum / streaks.length
        total_streaks := streaks.length
        consistency_score :=
          if 1 < dates.length then
            (dates.length : ℚ) / (((dates.getLast?).getD 0 - dates.headD 0 + 1 : ℕ) : ℚ)
          else 1 }

/-- `round(2)` of pandas, modelled as exact rounding to 2 decimal places on
`ℚ` (floating-point representation noise and the half-even tie rule are below
the abstraction level of this embedding). -/
def round2 (q : ℚ) : ℚ := (round (q * 100) : ℤ) / 100

/-- `idxmax`-style selection: the first element of the list attaining the
maximal value of `f` (pandas `idxmax` returns the first index of the max). -/
def firstMaxBy (f : α → ℚ) : List α → Option α
  | [] => none
  | x :: xs =>
    match firstMaxBy f xs with
    | none => some x
    | some y => if f x < f y then some y else some x

/-- `idxmin`-style selection: first element attaining the minimal value of
`f`; first max of `-f`. -/
def firstMinBy (f : α → ℚ) (l : List α) : Option α := firstMaxBy (fun a => -(f a)) l

/-- Weekday names in canonical order (`weekday_order` in
`get_weekly_patterns`; pandas `day_name()`). -/
def weekdayNames : List String :=
  ["Monday", "Tuesday", "Wednesday", "Thursday", "Friday", "Saturday", "Sunday"]

/-- Mood values of the entries falling on weekday `w` (Monday = 0). -/
def weekdayMoods (l : List Entry) (w : ℕ) : List ℚ :=
  moodsOf (l.filter (fun e => dayOfWeek e.date == w))

/-- The row of the `weekday_stats` frame for weekday index `w`. -/
structure WeekdayStat where
  name : String
  wd : ℕ
  mean : ℚ
  count : ℕ
deriving DecidableEq

/-- The `weekday_stats` row built for weekday index `w`. -/
def weekdayStatOf (l : List Entry) (w : ℕ) : WeekdayStat :=
  ⟨weekdayNames.getD w "", w, round2 (mean (weekdayMoods l w)), (weekdayMoods l w).length⟩

/-- Result of `get_weekly_patterns`. -/
structure WeeklyResult where
  weekday_averages : List WeekdayStat
  best_day : Option String
  worst_day : Option String
deriving DecidableEq

/-- `MoodAnalytics.get_weekly_patterns`: group by weekday name, mean/count
rounded to 2 decimals, reindexed to the canonical Monday-first order keeping
only the weekdays present; `best_day`/`worst_day` via `idxmax`/`idxmin` on
the rounded means.  `none` models the `{}` returned on an empty frame. -/
def getWeeklyPatterns (l : List Entry) : Option WeeklyResult :=
  if l = [] then none
  else
    let stats := (List.range 7).filterMap (fun w =>
      if (weekdayMoods l w).isEmpty then none else some (weekdayStatOf l w))
    some ⟨stats, (firstMaxBy (fun s => s.mean) stats).map (fun s => s.name),
      (firstMinBy (fun s => s.mean) stats).map (fun s => s.name)⟩

/-- Month names (`strftime('%B')`). -/
def monthNames : List String :=
  ["January", "February", "March", "April", "May", "June", "July", "August",
   "September", "October", "November", "December"]

/-- The canonical month numbers 1..12. -/
def monthNums : List ℕ := (List.range 12).map (· + 1)

/-- Mood values of the entries whose date falls in calendar month `m`,
any year. -/
def monthMoods (l : List Entry) (m : ℕ) : List ℚ :=
  moodsOf (l.filter (fun e => e.date.month == m))

/-- A row of the `monthly_stats` frame: the group key is the
`(month name, month number)` pair. -/
structure MonthStat where
  name : String
  mnum : ℕ
  mean : ℚ
  count : ℕ
deriving DecidableEq

/-- The `monthly_stats` row built for month number `m`. -/
def monthStatOf (l : List Entry) (m : ℕ) : MonthStat :=
  ⟨monthNames.getD (m - 1) "", m, round2 (mean (monthMoods l m)), (monthMoods l m).length⟩

/-- Result of `get_monthly_patterns`. -/
structure MonthlyResult where
  monthly_averages : List MonthStat
  best_month : Option String
  worst_month : Option String
deriving DecidableEq

/-- `MoodAnalytics.get_monthly_patterns`: group by `(month name, month_num)`
— i.e. by calendar month across all years — mean/count rounded to 2 decimals,
sorted by month number; `best_month`/`worst_month` via `idxmax`/`idxmin` on
the rounded means. `none` models the `{}` returned on an empty frame. -/
def getMonthlyPatterns (l : List Entry) : Option MonthlyResult :=
  if l = [] then none
  else
    let stats := monthNums.filterMap (fun m =>
      if (monthMoods l m).isEmpty then none else some (monthStatOf l m))
    some ⟨stats, (firstMaxBy (fun s => s.mean) stats).map (fun s => s.name),
      (firstMinBy (fun s => s.mean) stats).map (fun s => s.name)⟩

/-- `l.getD i 0 - mean l`: the `i`-th centered value of a column. -/
def centered (l : List ℚ) (i : ℕ) : ℚ := l.getD i 0 - mean l

/-- Centered covariance sum `Σ (xᵢ - x̄)(yᵢ - ȳ)` of two equal-length
columns.  Pearson's `r` is `covSum x y / sqrt (varSum x * varSum y)`; the
normalizing factors `1/(n-1)` of `Series.corr` cancel in that quotient. -/
def covSum (x y : List ℚ) : ℚ :=
  ∑ i ∈ Finset.range x.length, centered x i * centered y i

/-- Centered sum of squares `Σ (xᵢ - x̄)²` of a column. -/
def varSum (x : List ℚ) : ℚ := covSum x x

/-- One entry of the correlation mapping of `get_mood_correlations`: the
factor name together with the data determining the source's coefficient
`num / sqrt den` (`num` the centered covariance sum against mood, `den` the
product of the two centered sums of squares). -/
structure CorrEntry where
  factor : String
  num : ℚ
  den : ℚ
deriving DecidableEq

/-- The four derived factor columns of `get_mood_correlations`:
`day_of_week` (Monday = 0), `day_of_month`, `month`, `journal_length`. -/
def factorsOf (l : List Entry) : List (String × List ℚ) :=
  [("day_of_week", l.map (fun e => (dayOfWeek e.date : ℚ))),
   ("day_of_month", l.map (fun e => (e.date.day : ℚ))),
   ("month", l.map (fun e => (e.date.month : ℚ))),
   ("journal_length", l.map (fun e => (e.journal.length : ℚ)))]

/-- `MoodAnalytics.get_mood_correlations`: Pearson correlation of mood
against each factor, dropping the `NaN` entries (`Series.corr` is `NaN`
exactly when either column has zero centered sum of squares, which covers
series of length < 2). -/
def getMoodCorrelations (l : List Entry) : List CorrEntry :=
  if l = [] then []
  else
    let moods := moodsOf l
    (factorsOf l).filterMap (fun p =>
      if varSum moods = 0 ∨ varSum p.2 = 0 then none
      else some ⟨p.1, covSum moods p.2, varSum moods * varSum p.2⟩)

/-- Sample variance (square of pandas `Series.std()`, `ddof = 1`). -/
def sampleVariance (xs : List ℚ) : ℚ := varSum xs / ((xs.length : ℚ) - 1)

/-- Absolute differences of temporally adjacent values
(`Series.diff().abs().dropna()`). -/
def absDiffs : List ℚ → List ℚ
  | x :: y :: rest => |y - x| :: absDiffs (y :: rest)
  | _ => []

/-- Fold maximum of a list of rationals starting from its head. -/
def maxOf (l : List ℚ) : ℚ := l.foldl max (l.headD 0)

/-- Fold minimum of a list of rationals starting from its head. -/
def minOf (l : List ℚ) : ℚ := l.foldl min (l.headD 0)

/-- `_categorize_volatility`, expressed on the variance: the source compares
`std_dev` against `0.5, 1.0, 1.5, 2.0`, which (with `std_dev ≥ 0`) is the
same as comparing `variance = std_dev²` against the squared thresholds. -/
def categorizeVolatilitySq (v : ℚ) : String :=
  if v < 1/4 then "Very Stable"
  else if v < 1 then "Stable"
  else if v < 9/4 then "Moderate"
  else if v < 4 then "Variable"
  else "Highly Variable"

/-- Result of `get_mood_volatility`.  The source's `standard_deviation` is
`sqrt variance` and its `stability_score` is `1 - sqrt variance / 4`; both
are determined by the stored `variance`. -/
structure VolatilityResult where
  variance : ℚ
  mood_range : ℚ
  average_daily_change : ℚ
  volatility_category : String
deriving DecidableEq

/-- `MoodAnalytics.get_mood_volatility`; `none` models the `{}` returned on
a frame with fewer than 2 rows. -/
def getMoodVolatility (l : List Entry) : Option VolatilityResult :=
  if l.length < 2 then none
  else
    let moods := moodsOf (sortByDate l)
    let v := sampleVariance moods
    some ⟨v, maxOf moods - minOf moods, mean (absDiffs moods), categorizeVolatilitySq v⟩

/-! The instance-holds-a-frame pattern of `class MoodAnalytics`, modelled as
explicit state passing: each method is a step from the held frame to a
result together with the frame the instance holds afterwards.  Every method
of the source only reads `self.df` (sorting and column additions happen on
copies returned by `sort_values`/`.copy()`), so each step returns the state
unchanged. -/

/-- `get_mood_trends` as a step on the held frame. -/
def trendsStep (s : List Entry) : Option TrendResult × List Entry := (getMoodTrends s, s)

/-- `get_weekly_patterns` as a step on the held frame. -/
def weeklyStep (s : List Entry) : Option WeeklyResult × List Entry := (getWeeklyPatterns s, s)

/-- `get_monthly_patterns` as a step on the held frame. -/
def monthlyStep (s : List Entry) : Option MonthlyResult × List Entry := (getMonthlyPatterns s, s)

/-- `get_mood_correlations` as a step on the held frame. -/
def correlationsStep (s : List Entry) : List CorrEntry × List Entry := (getMoodCorrelations s, s)

/-- `get_streak_analysis` as a step on the held frame. -/
def streaksStep (s : List Entry) : Option StreakResult × List Entry := (getStreakAnalysis s, s)

/-- `get_mood_volatility` as a step on the held frame. -/
def volatilityStep (s : List Entry) : Option VolatilityResult × List Entry := (getMoodVolatility s, s)

/-! ## Concrete series used by the claim witnesses -/

/-- A concrete series of 6 entries (fewer than 7), 2024-01-01 .. 2024-01-06. -/
def c1Series : List Entry :=
  [⟨⟨2024, 1, 1⟩, 1, ""⟩, ⟨⟨2024, 1, 2⟩, 1, ""⟩, ⟨⟨2024, 1, 3⟩, 1, ""⟩,
   ⟨⟨2024, 1, 4⟩, 4, ""⟩, ⟨⟨2024, 1, 5⟩, 5, ""⟩, ⟨⟨2024, 1, 6⟩, 5, ""⟩]

/-- C3 witness input: two isolated dates (gap of 2 days) — every maximal run
has length 1. -/
def c3Series : List Entry := [⟨⟨2024, 2, 1⟩, 3, ""⟩, ⟨⟨2024, 2, 3⟩, 4, ""⟩]

/-- The concrete series of C4: entries on 2024-01-01 .. 2024-01-05 and on
2024-01-10. -/
def c4Series : List Entry :=
  [⟨⟨2024, 1, 1⟩, 3, ""⟩, ⟨⟨2024, 1, 2⟩, 4, ""⟩, ⟨⟨2024, 1, 3⟩, 3, ""⟩,
   ⟨⟨2024, 1, 4⟩, 2, ""⟩, ⟨⟨2024, 1, 5⟩, 5, ""⟩, ⟨⟨2024, 1, 10⟩, 4, ""⟩]

/-- A concrete series of 15 entries, 2024-03-01 .. 2024-03-15: moods 2 on the
first 8 days and 4 on the last 7. -/
def c2Series : List Entry :=
  [⟨⟨2024, 3, 1⟩, 2, ""⟩, ⟨⟨2024, 3, 2⟩, 2, ""⟩, ⟨⟨2024, 3, 3⟩, 2, ""⟩,
   ⟨⟨2024, 3, 4⟩, 2, ""⟩, ⟨⟨2024, 3, 5⟩, 2, ""⟩, ⟨⟨2024, 3, 6⟩, 2, ""⟩,
   ⟨⟨2024, 3, 7⟩, 2, ""⟩, ⟨⟨2024, 3, 8⟩, 2, ""⟩, ⟨⟨2024, 3, 9⟩, 4, ""⟩,
   ⟨⟨2024, 3, 10⟩, 4, ""⟩, ⟨⟨2024, 3, 11⟩, 4, ""⟩, ⟨⟨2024, 3, 12⟩, 4, ""⟩,
   ⟨⟨2024, 3, 13⟩, 4, ""⟩, ⟨⟨2024, 3, 14⟩, 4, ""⟩, ⟨⟨2024, 3, 15⟩, 4, ""⟩]

/-- The concrete series for the weekly-pattern witness: three Mondays with
moods 4, 5, 3 and one Tuesday with mood 5. -/
def c7Series : List Entry :=
  [⟨⟨2024, 1, 1⟩, 4, ""⟩, ⟨⟨2024, 1, 8⟩, 5, ""⟩, ⟨⟨2024, 1, 15⟩, 3, ""⟩,
   ⟨⟨2024, 1, 2⟩, 5, ""⟩]

/-- The concrete series for the monthly-pattern witness: March 2023,
March 2024 and January 2024. -/
def c5Series : List Entry :=
  [⟨⟨2023, 3, 5⟩, 4, ""⟩, ⟨⟨2024, 3, 9⟩, 2, ""⟩, ⟨⟨2024, 1, 1⟩, 5, ""⟩]

/-- The concrete series for the correlation witness: two entries with
different moods, weekdays and journal lengths. -/
def c6Series : List Entry := [⟨⟨2024, 1, 1⟩, 1, "a"⟩, ⟨⟨2024, 1, 2⟩, 5, ""⟩]

/-- The concrete series for the volatility witness: two entries with the
extreme moods 1 and 5. -/
def c9Series : List Entry := [⟨⟨2024, 1, 1⟩, 1, ""⟩, ⟨⟨2024, 1, 2⟩, 5, ""⟩]

/-! ## Shared lemmas -/

lemma mem_sortByDate {a : Entry} {l : List Entry} : a ∈ sortByDate l ↔ a ∈ l :=
  (List.perm_insertionSort byDate l).mem_iff

lemma length_sortByDate (l : List Entry) : (sortByDate l).length = l.length :=
  (List.perm_insertionSort byDate l).length_eq

/-- `sortByDate` indeed sorts ascending by date. -/
lemma sortByDate_sorted (l : List Entry) : List.Sorted byDate (sortByDate l) :=
  List.sorted_insertionSort byDate l

/-- The streak scan records exactly the maximal-run lengths exceeding 1. -/
lemma streakGo_eq_filter (ds : List ℕ) :
    ∀ p cur, streakGo p cur ds = (runGo p cur ds).filter (fun k => decide (1 < k)) := by
  induction ds with
  | nil =>
    intro p cur
    by_cases h : 1 < cur <;> simp [streakGo, runGo, List.filter_cons, h]
  | cons d ds ih =>
    intro p cur
    by_cases h : d - p = 1
    · simp [streakGo, runGo, h, ih]
    · by_cases h2 : 1 < cur <;>
        simp [streakGo, runGo, h, h2, ih, List.filter_cons]

/-- The `streaks` list of the source is the filter of all maximal-run
lengths to those exceeding 1. -/
lemma findStreaks_eq_filter (ds : List ℕ) :
    findStreaks ds = (runLengths ds).filter (fun k => decide (1 < k)) := by
  cases ds with
  | nil => rfl
  | cons d ds => exact streakGo_eq_filter ds d 1

lemma foldl_max_init_le (s : List ℕ) : ∀ a, a ≤ s.foldl max a := by
  induction s with
  | nil => intro a; simp
  | cons x xs ih =>
    intro a
    exact le_trans (le_max_left a x) (ih (max a x))

lemma le_foldl_max (s : List ℕ) : ∀ a, ∀ x ∈ s, x ≤ s.foldl max a := by
  induction s with
  | nil => simp
  | cons y ys ih =>
    intro a x hx
    rcases List.mem_cons.mp hx with rfl | hx
    · exact le_trans (le_max_right a x) (foldl_max_init_le ys _)
    · exact ih _ x hx

lemma sum_map_cast_le (s : List ℕ) (M : ℕ) (h : ∀ x ∈ s, x ≤ M) :
    (s.map (fun k : ℕ => (k : ℚ))).sum ≤ s.length * M := by
  induction s with
  | nil => simp
  | cons x xs ih =>
    simp only [List.map_cons, List.sum_cons, List.length_cons, Nat.cast_add, Nat.cast_one]
    have hx : (x : ℚ) ≤ M := by exact_mod_cast h x (List.mem_cons_self x xs)
    have hxs := ih (fun y hy => h y (List.mem_cons_of_mem _ hy))
    nlinarith [hx, hxs]

/-! ## Claims C1, C3, C4, C8, C10 -/

/-- C1: falsified by the code — on the 6-entry series `c1Series`
(fewer than 7 entries) `get_mood_trends` does not report insufficient data
(the empty dict, modelled `none`) but silently returns a numeric trend with
recent/previous averages and the direction `"stable"`. -/
theorem c1_trends_computed_below_seven :
    (getMoodTrends c1Series).isSome = true ∧
      (getMoodTrends c1Series).map (fun r => r.trend_direction) = some "stable" ∧
      (getMoodTrends c1Series).map (fun r => r.recent_average) = some (17/6) :=
  ⟨of_decide_eq_true (by with_unfolding_all rfl),
   of_decide_eq_true (by with_unfolding_all rfl),
   of_decide_eq_true (by with_unfolding_all rfl)⟩

/-- C3 counterexample: on the empty series `get_streak_analysis` returns the
empty dict (`none`), not a result with `longest_streak = 1`,
`average_streak = 1`, `total_streaks = 0`. -/
theorem c3_empty_series_counterexample : getStreakAnalysis [] = none := rfl

/-- C3 (amended to non-empty series): `get_streak_analysis` counts as
`total_streaks` exactly the maximal runs of consecutive dates of length > 1,
and when no maximal run is longer than 1 it returns `longest_streak = 1`,
`average_streak = 1`, `total_streaks = 0`. -/
theorem streak_defaults_nonempty (l : List Entry) (h : l ≠ []) :
    ∃ r, getStreakAnalysis l = some r ∧
      r.total_streaks =
        ((runLengths (sortedDates l)).filter (fun k => decide (1 < k))).length ∧
      ((∀ k ∈ runLengths (sortedDates l), k ≤ 1) →
        r.longest_streak = 1 ∧ r.average_streak = 1 ∧ r.total_streaks = 0) := by
  rw [getStreakAnalysis, if_neg h]
  refine ⟨_, rfl, ?_, ?_⟩
  · simp [findStreaks_eq_filter]
  · intro hall
    have hnil : findStreaks (sortedDates l) = [] := by
      rw [findStreaks_eq_filter]
      rw [List.filter_eq_nil_iff]
      intro k hk
      simpa using Nat.not_lt.mpr (hall k hk)
    simp [hnil]

/-- Witness for `streak_defaults_nonempty` at the concrete series
`c3Series`. -/
theorem streak_defaults_nonempty_witness :
    ∃ r, getStreakAnalysis c3Series = some r ∧
      r.total_streaks =
        ((runLengths (sortedDates c3Series)).filter (fun k => decide (1 < k))).length ∧
      ((∀ k ∈ runLengths (sortedDates c3Series), k ≤ 1) →
        r.longest_streak = 1 ∧ r.average_streak = 1 ∧ r.total_streaks = 0) :=
  streak_defaults_nonempty c3Series (by decide)

/-- C4: on the series with entries on each of 2024-01-01 .. 2024-01-05 and
on 2024-01-10, `get_streak_analysis` returns `longest_streak = 5`,
`total_streaks = 1` (the isolated day excluded) and
`consistency_score = 6/10` (the single streak also gives
`average_streak = 5`). -/
theorem c4_streak_example :
    getStreakAnalysis c4Series = some ⟨5, 5, 1, 6/10⟩ :=
  of_decide_eq_true (by with_unfolding_all rfl)

/-- C8: every analytics operation, seen as a step on the frame held by the
`MoodAnalytics` instance, leaves the held frame unchanged, and calling it
again on the resulting state returns the identical result. -/
theorem analytics_ops_pure (s : List Entry) :
    (trendsStep s).2 = s ∧ (trendsStep ((trendsStep s).2)).1 = (trendsStep s).1 ∧
    (weeklyStep s).2 = s ∧ (weeklyStep ((weeklyStep s).2)).1 = (weeklyStep s).1 ∧
    (monthlyStep s).2 = s ∧ (monthlyStep ((monthlyStep s).2)).1 = (monthlyStep s).1 ∧
    (correlationsStep s).2 = s ∧
      (correlationsStep ((correlationsStep s).2)).1 = (correlationsStep s).1 ∧
    (streaksStep s).2 = s ∧ (streaksStep ((streaksStep s).2)).1 = (streaksStep s).1 ∧
    (volatilityStep s).2 = s ∧
      (volatilityStep ((volatilityStep s).2)).1 = (volatilityStep s).1 :=
  ⟨rfl, rfl, rfl, rfl, rfl, rfl, rfl, rfl, rfl, rfl, rfl, rfl⟩

/-- C10: for every non-empty series, the average recorded streak length never
exceeds the longest streak (both default to 1 together when no streak is
recorded). -/
theorem streak_average_le_longest (l : List Entry) (h : l ≠ []) :
    ∃ r, getStreakAnalysis l = some r ∧
      r.average_streak ≤ (r.longest_streak : ℚ) := by
  rw [getStreakAnalysis, if_neg h]
  refine ⟨_, rfl, ?_⟩
  by_cases hs : findStreaks (sortedDates l) = []
  · simp [hs]
  · simp only [hs, if_false]
    set s := findStreaks (sortedDates l) with hsdef
    set M := s.foldl max 0 with hM
    have hlen : 0 < s.length := List.length_pos.mpr hs
    have hsum : (s.map (fun k : ℕ => (k : ℚ))).sum ≤ s.length * M :=
      sum_map_cast_le s M (le_foldl_max s 0)
    rw [div_le_iff₀ (by exact_mod_cast hlen)]
    calc (s.map (fun k : ℕ => (k : ℚ))).sum ≤ s.length * M := hsum
      _ = (M : ℚ) * s.length := by ring

/-- Witness for `streak_average_le_longest` at the concrete series
`c3Series`. -/
theorem streak_average_le_longest_witness :
    ∃ r, getStreakAnalysis c3Series = some r ∧
      r.average_streak ≤ (r.longest_streak : ℚ) :=
  streak_average_le_longest c3Series (by decide)

lemma classifyDir_eq_improving (r p : ℚ) :
    classifyDir r p = "improving" ↔ p + 1/5 < r := by
  unfold classifyDir
  split_ifs with h1 h2
  · exact ⟨fun _ => h1, fun _ => rfl⟩
  · exact ⟨fun hs => absurd hs (by decide), fun hlt => absurd hlt h1⟩
  · exact ⟨fun hs => absurd hs (by decide), fun hlt => absurd hlt h1⟩

lemma classifyDir_eq_declining (r p : ℚ) :
    classifyDir r p = "declining" ↔ r < p - 1/5 := by
  unfold classifyDir
  split_ifs with h1 h2
  · constructor
    · intro hs; exact absurd hs (by decide)
    · intro hlt; exact absurd hlt (by linarith)
  · exact ⟨fun _ => h2, fun _ => rfl⟩
  · exact ⟨fun hs => absurd hs (by decide), fun hlt => absurd hlt h2⟩

lemma classifyDir_eq_stable (r p : ℚ) :
    classifyDir r p = "stable" ↔ ¬(p + 1/5 < r) ∧ ¬(r < p - 1/5) := by
  unfold classifyDir
  split_ifs with h1 h2
  · exact ⟨fun hs => absurd hs (by decide), fun hand => absurd h1 hand.1⟩
  · exact ⟨fun hs => absurd hs (by decide), fun hand => absurd h2 hand.2⟩
  · exact ⟨fun _ => ⟨h1, h2⟩, fun _ => rfl⟩

/-- C2: for every non-empty series, `get_mood_trends` takes the mean of the
(up to) 7 most recent entries after sorting ascending by date as
`recent_average`, the mean of the entries ranked 8–14 most recent as
`previous_average` when at least 14 entries exist and `recent_average`
otherwise, and classifies the direction as improving/declining exactly when
`recent_average` differs from `previous_average` by more than `0.2` up/down,
and as stable otherwise. -/
theorem trends_algorithm (l : List Entry) (h : l ≠ []) :
    ∃ r, getMoodTrends l = some r ∧
      r.recent_average = mean (lastN 7 (moodsOf (sortByDate l))) ∧
      r.previous_average =
        (if 14 ≤ l.length then mean ((lastN 14 (moodsOf (sortByDate l))).take 7)
         else r.recent_average) ∧
      ((r.trend_direction = "improving") ↔
        r.previous_average + 1/5 < r.recent_average) ∧
      ((r.trend_direction = "declining") ↔
        r.recent_average < r.previous_average - 1/5) ∧
      ((r.trend_direction = "stable") ↔
        ¬(r.previous_average + 1/5 < r.recent_average) ∧
          ¬(r.recent_average < r.previous_average - 1/5)) := by
  have hlen := length_sortByDate l
  simp only [getMoodTrends, if_neg h]
  refine ⟨_, rfl, rfl, ?_, ?_, ?_, ?_⟩
  · rw [hlen]
  · exact classifyDir_eq_improving _ _
  · exact classifyDir_eq_declining _ _
  · exact classifyDir_eq_stable _ _

/-- Witness for `trends_algorithm` at the concrete 15-entry series
`c2Series`. -/
theorem trends_algorithm_witness :
    ∃ r, getMoodTrends c2Series = some r ∧
      r.recent_average = mean (lastN 7 (moodsOf (sortByDate c2Series))) ∧
      r.previous_average =
        (if 14 ≤ c2Series.length then mean ((lastN 14 (moodsOf (sortByDate c2Series))).take 7)
         else r.recent_average) ∧
      ((r.trend_direction = "improving") ↔
        r.previous_average + 1/5 < r.recent_average) ∧
      ((r.trend_direction = "declining") ↔
        r.recent_average < r.previous_average - 1/5) ∧
      ((r.trend_direction = "stable") ↔
        ¬(r.previous_average + 1/5 < r.recent_average) ∧
          ¬(r.recent_average < r.previous_average - 1/5)) :=
  trends_algorithm c2Series (by decide)

lemma filterMap_guard_map_key {β : Type} (keys : List ℕ) (q : ℕ → Bool) (g : ℕ → β)
    (key : β → ℕ) (hkey : ∀ k, key (g k) = k) :
    (keys.filterMap (fun k => if q k then none else some (g k))).map key
      = keys.filter (fun k => !(q k)) := by
  induction keys with
  | nil => rfl
  | cons k ks ih =>
    by_cases h : q k
    · simp [List.filterMap_cons, List.filter_cons, h, ih]
    · simp [List.filterMap_cons, List.filter_cons, h, ih, hkey]

lemma mem_filterMap_guard {β : Type} {keys : List ℕ} {q : ℕ → Bool} {g : ℕ → β} {b : β} :
    b ∈ keys.filterMap (fun k => if q k then none else some (g k)) ↔
      ∃ k, k ∈ keys ∧ q k = false ∧ b = g k := by
  rw [List.mem_filterMap]
  constructor
  · rintro ⟨k, hk, hif⟩
    rcases Bool.eq_false_or_eq_true (q k) with hq | hq
    · rw [hq] at hif
      simp at hif
    · rw [hq] at hif
      simp only [Bool.false_eq_true, if_false] at hif
      exact ⟨k, hk, hq, (Option.some.inj hif).symm⟩
  · rintro ⟨k, hk, hq, rfl⟩
    refine ⟨k, hk, ?_⟩
    rw [hq]
    simp

lemma firstMaxBy_spec {α : Type} (f : α → ℚ) (l : List α) (h : l ≠ []) :
    ∃ b pre post, firstMaxBy f l = some b ∧ l = pre ++ b :: post ∧
      (∀ t ∈ pre, f t < f b) ∧ (∀ t ∈ l, f t ≤ f b) := by
  induction l with
  | nil => exact absurd rfl h
  | cons x xs ih =>
    cases xs with
    | nil => exact ⟨x, [], [], rfl, rfl, by simp, by simp⟩
    | cons z zs =>
      obtain ⟨b, pre, post, hb, hsplit, hlt, hle⟩ := ih (by simp)
      have hstep : firstMaxBy f (x :: z :: zs)
          = if f x < f b then some b else some x := by
        rw [firstMaxBy, hb]
      by_cases hc : f x < f b
      · refine ⟨b, x :: pre, post, ?_, ?_, ?_, ?_⟩
        · rw [hstep, if_pos hc]
        · rw [hsplit]; rfl
        · intro t ht
          rcases List.mem_cons.mp ht with rfl | ht
          · exact hc
          · exact hlt t ht
        · intro t ht
          rcases List.mem_cons.mp ht with rfl | ht
          · exact le_of_lt hc
          · exact hle t ht
      · refine ⟨x, [], z :: zs, ?_, rfl, by simp, ?_⟩
        · rw [hstep, if_neg hc]
        · intro t ht
          rcases List.mem_cons.mp ht with rfl | ht
          · exact le_refl _
          · exact le_trans (hle t ht) (not_lt.mp hc)

lemma firstMinBy_spec {α : Type} (f : α → ℚ) (l : List α) (h : l ≠ []) :
    ∃ b pre post, firstMinBy f l = some b ∧ l = pre ++ b :: post ∧
      (∀ t ∈ pre, f b < f t) ∧ (∀ t ∈ l, f b ≤ f t) := by
  obtain ⟨b, pre, post, hb, hsplit, hlt, hle⟩ := firstMaxBy_spec (fun a => -(f a)) l h
  exact ⟨b, pre, post, hb, hsplit,
    fun t ht => by have := hlt t ht; simpa using this,
    fun t ht => by have := hle t ht; simpa using this⟩

/-- C7: for every non-empty series, `get_weekly_patterns` reports exactly
the weekdays that have at least one entry, in canonical Monday-first order;
each reported weekday carries the 2-decimal-rounded mean mood and the entry
count of that weekday; and `best_day`/`worst_day` are the weekdays of
maximal/minimal reported mean, ties broken by first occurrence in canonical
order. -/
theorem weekly_patterns_spec (l : List Entry) (h : l ≠ []) :
    ∃ r, getWeeklyPatterns l = some r ∧
      r.weekday_averages.map (fun s => s.wd)
        = (List.range 7).filter (fun w => !((weekdayMoods l w).isEmpty)) ∧
      (∀ s ∈ r.weekday_averages,
        s.name = weekdayNames.getD s.wd "" ∧
        s.mean = round2 (mean (weekdayMoods l s.wd)) ∧
        s.count = (weekdayMoods l s.wd).length) ∧
      (∃ b pre post, r.weekday_averages = pre ++ b :: post ∧
        r.best_day = some b.name ∧
        (∀ t ∈ pre, t.mean < b.mean) ∧
        (∀ t ∈ r.weekday_averages, t.mean ≤ b.mean)) ∧
      (∃ w pre post, r.weekday_averages = pre ++ w :: post ∧
        r.worst_day = some w.name ∧
        (∀ t ∈ pre, w.mean < t.mean) ∧
        (∀ t ∈ r.weekday_averages, w.mean ≤ t.mean)) := by
  simp only [getWeeklyPatterns, if_neg h]
  set stats := (List.range 7).filterMap (fun w =>
    if (weekdayMoods l w).isEmpty then none else some (weekdayStatOf l w)) with hstats
  have hmapwd : stats.map (fun s => s.wd)
      = (List.range 7).filter (fun w => !((weekdayMoods l w).isEmpty)) :=
    filterMap_guard_map_key _ _ _ _ (fun _ => rfl)
  have hne : stats ≠ [] := by
    intro hnil
    obtain ⟨e, he⟩ := List.exists_mem_of_ne_nil l h
    have hw7 : dayOfWeek e.date ∈ List.range 7 :=
      List.mem_range.mpr (Nat.mod_lt _ (by norm_num))
    have hmem : (e.mood : ℚ) ∈ weekdayMoods l (dayOfWeek e.date) := by
      unfold weekdayMoods moodsOf
      exact List.mem_map_of_mem _ (List.mem_filter_of_mem he (by simp))
    have hq : (!((weekdayMoods l (dayOfWeek e.date)).isEmpty)) = true := by
      rcases hlw : weekdayMoods l (dayOfWeek e.date) with _ | ⟨a, as⟩
      · rw [hlw] at hmem; cases hmem
      · rfl
    have : dayOfWeek e.date ∈ (List.range 7).filter
        (fun w => !((weekdayMoods l w).isEmpty)) := List.mem_filter_of_mem hw7 hq
    rw [← hmapwd, hnil] at this
    cases this
  obtain ⟨b, pre, post, hb, hsplit, hlt, hle⟩ := firstMaxBy_spec (fun s => s.mean) stats hne
  obtain ⟨w, pre2, post2, hw, hsplit2, hlt2, hle2⟩ := firstMinBy_spec (fun s => s.mean) stats hne
  refine ⟨_, rfl, hmapwd, ?_, ?_, ?_⟩
  · intro s hs
    obtain ⟨k, _, _, rfl⟩ := mem_filterMap_guard.mp hs
    exact ⟨rfl, rfl, rfl⟩
  · exact ⟨b, pre, post, hsplit, by rw [hb]; rfl, hlt, hle⟩
  · exact ⟨w, pre2, post2, hsplit2, by rw [hw]; rfl, hlt2, hle2⟩

/-- Witness for `weekly_patterns_spec` at the concrete series `c7Series`. -/
theorem weekly_patterns_spec_witness :
    ∃ r, getWeeklyPatterns c7Series = some r ∧
      r.weekday_averages.map (fun s => s.wd)
        = (List.range 7).filter (fun w => !((weekdayMoods c7Series w).isEmpty)) ∧
      (∀ s ∈ r.weekday_averages,
        s.name = weekdayNames.getD s.wd "" ∧
        s.mean = round2 (mean (weekdayMoods c7Series s.wd)) ∧
        s.count = (weekdayMoods c7Series s.wd).length) ∧
      (∃ b pre post, r.weekday_averages = pre ++ b :: post ∧
        r.best_day = some b.name ∧
        (∀ t ∈ pre, t.mean < b.mean) ∧
        (∀ t ∈ r.weekday_averages, t.mean ≤ b.mean)) ∧
      (∃ w pre post, r.weekday_averages = pre ++ w :: post ∧
        r.worst_day = some w.name ∧
        (∀ t ∈ pre, w.mean < t.mean) ∧
        (∀ t ∈ r.weekday_averages, w.mean ≤ t.mean)) :=
  weekly_patterns_spec c7Series (by decide)

/-- C5: for every non-empty series of valid calendar months,
`get_monthly_patterns` produces one bucket per calendar month that has
entries, merged across all years (the bucket of month `m` counts and
averages every entry whose date's month is `m`, whatever its year), buckets
strictly ordered by month number; every entry falls into the bucket of its
month. -/
theorem monthly_patterns_spec (l : List Entry) (h : l ≠ [])
    (hvalid : ∀ e ∈ l, 1 ≤ e.date.month ∧ e.date.month ≤ 12) :
    ∃ r, getMonthlyPatterns l = some r ∧
      r.monthly_averages.map (fun s => s.mnum)
        = monthNums.filter (fun m => !((monthMoods l m).isEmpty)) ∧
      List.Pairwise (· < ·) (r.monthly_averages.map (fun s => s.mnum)) ∧
      (∀ s ∈ r.monthly_averages,
        s.name = monthNames.getD (s.mnum - 1) "" ∧
        s.mean = round2 (mean (monthMoods l s.mnum)) ∧
        s.count = (monthMoods l s.mnum).length) ∧
      (∀ e ∈ l, ∃ s ∈ r.monthly_averages, s.mnum = e.date.month) := by
  simp only [getMonthlyPatterns, if_neg h]
  have hmapm : (monthNums.filterMap (fun m =>
        if (monthMoods l m).isEmpty then none else some (monthStatOf l m))).map
          (fun s => s.mnum)
      = monthNums.filter (fun m => !((monthMoods l m).isEmpty)) :=
    filterMap_guard_map_key _ _ _ _ (fun _ => rfl)
  refine ⟨_, rfl, hmapm, ?_, ?_, ?_⟩
  · rw [hmapm]
    exact List.Pairwise.filter _ (by decide)
  · intro s hs
    obtain ⟨k, _, _, rfl⟩ := mem_filterMap_guard.mp hs
    exact ⟨rfl, rfl, rfl⟩
  · intro e he
    obtain ⟨h1, h12⟩ := hvalid e he
    have hmm : e.date.month ∈ monthNums := by
      simp only [monthNums, List.mem_map, List.mem_range]
      exact ⟨e.date.month - 1, by omega, by omega⟩
    have hmem : (e.mood : ℚ) ∈ monthMoods l e.date.month := by
      unfold monthMoods moodsOf
      exact List.mem_map_of_mem _ (List.mem_filter_of_mem he (by simp))
    have hq : (monthMoods l e.date.month).isEmpty = false := by
      rcases hlw : monthMoods l e.date.month with _ | ⟨a, as⟩
      · rw [hlw] at hmem; cases hmem
      · rfl
    exact ⟨monthStatOf l e.date.month,
      mem_filterMap_guard.mpr ⟨e.date.month, hmm, hq, rfl⟩, rfl⟩

/-- Witness for `monthly_patterns_spec` at the concrete series `c5Series`
(March 2023 and March 2024 share one bucket). -/
theorem monthly_patterns_spec_witness :
    ∃ r, getMonthlyPatterns c5Series = some r ∧
      r.monthly_averages.map (fun s => s.mnum)
        = monthNums.filter (fun m => !((monthMoods c5Series m).isEmpty)) ∧
      List.Pairwise (· < ·) (r.monthly_averages.map (fun s => s.mnum)) ∧
      (∀ s ∈ r.monthly_averages,
        s.name = monthNames.getD (s.mnum - 1) "" ∧
        s.mean = round2 (mean (monthMoods c5Series s.mnum)) ∧
        s.count = (monthMoods c5Series s.mnum).length) ∧
      (∀ e ∈ c5Series, ∃ s ∈ r.monthly_averages, s.mnum = e.date.month) :=
  monthly_patterns_spec c5Series (by decide) (by decide)

lemma varSum_nonneg (x : List ℚ) : 0 ≤ varSum x := by
  unfold varSum covSum
  exact Finset.sum_nonneg fun _ _ => mul_self_nonneg _

/-- Cauchy–Schwarz for the centered sums: `covSum² ≤ varSum · varSum`. -/
lemma covSum_sq_le (x y : List ℚ) (h : x.length = y.length) :
    covSum x y ^ 2 ≤ varSum x * varSum y := by
  unfold varSum covSum
  rw [← h]
  have hcs := Finset.sum_mul_sq_le_sq_mul_sq (Finset.range x.length)
    (centered x) (centered y)
  simpa only [← pow_two] using hcs

/-- C6: every factor present in the mapping of `get_mood_correlations` is a
well-defined Pearson coefficient lying in `[-1, 1]` — in the stored
representation: the radicand `den = varSum(mood)·varSum(factor)` is strictly
positive (so the coefficient `num / sqrt den` is defined, not NaN) and
`num² ≤ den` (equivalently `|num / sqrt den| ≤ 1`); undefined factors never
appear since they are filtered out. -/
theorem correlations_in_range (l : List Entry) (c : CorrEntry)
    (hc : c ∈ getMoodCorrelations l) : 0 < c.den ∧ c.num ^ 2 ≤ c.den := by
  unfold getMoodCorrelations at hc
  by_cases hl : l = []
  · rw [if_pos hl] at hc
    cases hc
  · rw [if_neg hl, List.mem_filterMap] at hc
    obtain ⟨p, hp, hpc⟩ := hc
    by_cases hcond : varSum (moodsOf l) = 0 ∨ varSum p.2 = 0
    · rw [if_pos hcond] at hpc
      cases hpc
    · rw [if_neg hcond] at hpc
      obtain ⟨h1, h2⟩ := not_or.mp hcond
      obtain rfl := Option.some.inj hpc
      have hlen : (moodsOf l).length = p.2.length := by
        simp only [factorsOf, List.mem_cons, List.not_mem_nil, or_false] at hp
        rcases hp with h | h | h | h <;> rw [h] <;> simp [moodsOf]
      constructor
      · exact mul_pos (lt_of_le_of_ne (varSum_nonneg _) (Ne.symm h1))
          (lt_of_le_of_ne (varSum_nonneg _) (Ne.symm h2))
      · exact covSum_sq_le _ _ hlen

/-- Witness for `correlations_in_range`: on `c6Series` the `day_of_week`
coefficient data `(num, den) = (2, 4)` is in the mapping, and indeed
`0 < 4` and `2² ≤ 4` (the coefficient is `2/√4 = 1`). -/
theorem correlations_in_range_witness :
    (⟨"day_of_week", 2, 4⟩ : CorrEntry) ∈ getMoodCorrelations c6Series ∧
      0 < (⟨"day_of_week", 2, 4⟩ : CorrEntry).den ∧
      (⟨"day_of_week", 2, 4⟩ : CorrEntry).num ^ 2 ≤ (⟨"day_of_week", 2, 4⟩ : CorrEntry).den :=
  ⟨of_decide_eq_true (by with_unfolding_all rfl),
   correlations_in_range c6Series _ (of_decide_eq_true (by with_unfolding_all rfl))⟩

lemma list_sum_eq_range_getD (l : List ℚ) :
    l.sum = ∑ i ∈ Finset.range l.length, l.getD i 0 := by
  induction l with
  | nil => simp
  | cons x xs ih =>
    rw [List.sum_cons, List.length_cons, Finset.sum_range_succ']
    simp only [List.getD_cons_succ, List.getD_cons_zero]
    rw [ih]
    exact add_comm x _

lemma sum_sq_sub_eq (n : ℕ) (f : ℕ → ℚ) (c : ℚ) :
    ∑ i ∈ Finset.range n, (f i - c) * (f i - c)
      = (∑ i ∈ Finset.range n, f i * f i)
        - 2 * c * (∑ i ∈ Finset.range n, f i) + n * c * c := by
  induction n with
  | zero => simp
  | succ n ih =>
    rw [Finset.sum_range_succ, Finset.sum_range_succ, Finset.sum_range_succ, ih]
    push_cast
    ring

lemma getD_mem_of_lt (l : List ℚ) : ∀ i, i < l.length → l.getD i 0 ∈ l := by
  induction l with
  | nil => intro i hi; cases hi
  | cons x xs ih =>
    intro i hi
    cases i with
    | zero => exact List.mem_cons_self x xs
    | succ j =>
      rw [List.getD_cons_succ]
      exact List.mem_cons_of_mem x (ih j (by simpa using hi))

/-- For values in `[1, 5]` the centered sum of squares is at most `4·n`
(each value is within distance 2 of 3, and shifting the centering constant
from the mean never decreases the sum of squares). -/
lemma varSum_le_bound (xs : List ℚ) (hb : ∀ q ∈ xs, 1 ≤ q ∧ q ≤ 5) :
    varSum xs ≤ 4 * xs.length := by
  by_cases hn : xs.length = 0
  · have hxs : xs = [] := List.length_eq_zero.mp hn
    subst hxs
    simp [varSum, covSum]
  · have hnpos : (0 : ℚ) < xs.length := by
      exact_mod_cast Nat.pos_of_ne_zero hn
    have hSf : ∑ i ∈ Finset.range xs.length, xs.getD i 0
        = (xs.length : ℚ) * mean xs := by
      unfold mean
      rw [← list_sum_eq_range_getD]
      field_simp
    have hexp : varSum xs
        = (∑ i ∈ Finset.range xs.length, xs.getD i 0 * xs.getD i 0)
          - 2 * mean xs * ((xs.length : ℚ) * mean xs)
          + (xs.length : ℚ) * mean xs * mean xs := by
      unfold varSum covSum centered
      rw [sum_sq_sub_eq, hSf]
    have hexp3 : ∑ i ∈ Finset.range xs.length, (xs.getD i 0 - 3) * (xs.getD i 0 - 3)
        = (∑ i ∈ Finset.range xs.length, xs.getD i 0 * xs.getD i 0)
          - 2 * 3 * ((xs.length : ℚ) * mean xs) + (xs.length : ℚ) * 3 * 3 := by
      rw [sum_sq_sub_eq, hSf]
    have hle3 : varSum xs
        ≤ ∑ i ∈ Finset.range xs.length, (xs.getD i 0 - 3) * (xs.getD i 0 - 3) := by
      rw [hexp, hexp3]
      nlinarith [mul_nonneg (le_of_lt hnpos) (sq_nonneg (mean xs - 3))]
    have hterm : ∀ i ∈ Finset.range xs.length,
        (xs.getD i 0 - 3) * (xs.getD i 0 - 3) ≤ 4 := by
      intro i hi
      obtain ⟨hq1, hq5⟩ := hb _ (getD_mem_of_lt xs i (Finset.mem_range.mp hi))
      nlinarith
    have hsum3 : ∑ i ∈ Finset.range xs.length, (xs.getD i 0 - 3) * (xs.getD i 0 - 3)
        ≤ 4 * xs.length := by
      calc ∑ i ∈ Finset.range xs.length, (xs.getD i 0 - 3) * (xs.getD i 0 - 3)
          ≤ ∑ _i ∈ Finset.range xs.length, (4 : ℚ) := Finset.sum_le_sum hterm
        _ = 4 * xs.length := by
          rw [Finset.sum_const, Finset.card_range, nsmul_eq_mul]
          ring
    linarith

/-- On a 1–5 scale the sample variance of at least 2 values is at most 16
(in fact at most 8), i.e. the sample standard deviation is at most 4. -/
lemma sampleVariance_le_sixteen (xs : List ℚ) (h2 : 2 ≤ xs.length)
    (hb : ∀ q ∈ xs, 1 ≤ q ∧ q ≤ 5) : sampleVariance xs ≤ 16 := by
  have hv := varSum_le_bound xs hb
  have hn : (2 : ℚ) ≤ xs.length := by exact_mod_cast h2
  unfold sampleVariance
  rw [div_le_iff₀ (by linarith)]
  nlinarith

/-- C9: for every series of at least 2 entries with moods in `[1, 5]`,
`get_mood_volatility` reports a sample variance of at most 16, i.e. the
sample standard deviation is at most 4 and the source's
`stability_score = 1 - std_dev / 4` is non-negative. -/
theorem volatility_stability_nonneg (l : List Entry) (h2 : 2 ≤ l.length)
    (hm : ∀ e ∈ l, 1 ≤ e.mood ∧ e.mood ≤ 5) :
    ∃ r, getMoodVolatility l = some r ∧ r.variance ≤ 16 := by
  rw [getMoodVolatility, if_neg (by omega : ¬l.length < 2)]
  refine ⟨_, rfl, ?_⟩
  apply sampleVariance_le_sixteen
  · unfold moodsOf
    rw [List.length_map, length_sortByDate]
    exact h2
  · intro q hq
    unfold moodsOf at hq
    rw [List.mem_map] at hq
    obtain ⟨e, he, rfl⟩ := hq
    obtain ⟨ha, hb⟩ := hm e (mem_sortByDate.mp he)
    exact ⟨by exact_mod_cast ha, by exact_mod_cast hb⟩

/-- Witness for `volatility_stability_nonneg` at the concrete series
`c9Series`. -/
theorem volatility_stability_nonneg_witness :
    ∃ r, getMoodVolatility c9Series = some r ∧ r.variance ≤ 16 :=
  volatility_stability_nonneg c9Series (by decide) (by decide)
